import Mathlib

/-!
Verification of `scripts/fetch_fangraphs_fa_pool.py`.

The script is embedded shallowly:

* Python/JSON scalar values become the inductive type `Val`; numbers that
  Python stores as floats are modelled as exact rationals (`ℚ`), the standard
  idealisation for a shallow embedding (no claim here depends on binary
  floating-point rounding of the script's inputs or of its sleep delays).
* Python `dict`s flowing through the script become association lists
  (`Row := List (String × Val)`); lookup takes the first matching key, and
  `dictSet` models `d[k] = v` (update in place if present, else append),
  so insertion order is preserved exactly as in CPython.
* The fallible HTTP world of `call_api` is modelled by a `Client` function
  from the (1-based) attempt number to that attempt's outcome, and the retry
  loop returns, besides its `Except` result, the number of HTTP calls made
  and the list of delays slept, so that the retry/backoff claims are statable.
-/

/-- JSON-like run-time values handled by the script (Python scalars plus
lists and objects). Fractional numbers are modelled as exact rationals. -/
inductive Val where
  | null
  | bool (b : Bool)
  | int (n : Int)
  | num (q : ℚ)
  | str (s : String)
  | list (xs : List Val)
  | obj (fields : List (String × Val))

/-- A Python dict with string keys, as an insertion-ordered association list. -/
abbrev Row := List (String × Val)

/-- Python `k in row`. -/
def hasKey (r : Row) (k : String) : Bool :=
  r.any (fun p => p.1 == k)

/-- Lookup of the (first) binding of `k`, `none` when absent. -/
def rowGet? (r : Row) (k : String) : Option Val :=
  (r.find? (fun p => p.1 == k)).map Prod.snd

/-- Python `row.get(k, d)`. -/
def rowGet (r : Row) (k : String) (d : Val) : Val :=
  (rowGet? r k).getD d

/-- Python `d[k] = v`: overwrite the binding in place when the key is
already present, else append the new binding. -/
def dictSet (d : Row) (k : String) (v : Val) : Row :=
  if hasKey d k then d.map (fun p => if p.1 == k then (k, v) else p)
  else d ++ [(k, v)]

/-- The script's `first_present(row, keys)`: the value of the first
candidate key present in the row (presence, not truthiness, decides),
else the empty string.  `row.get(k)` defaults to `None`, but `k` is known
present so the default is irrelevant. -/
def first_present (row : Row) : List String → Val
  | [] => .str ""
  | k :: ks => if hasKey row k then (rowGet? row k).getD .null else first_present row ks

/-- Python's `v is None or v == ""`: for the builtin JSON types only the
empty string compares equal to `""`, and only `None` is `None`. -/
def isNoneOrEmptyStr (v : Val) : Bool :=
  match v with
  | .null => true
  | .str "" => true
  | _ => false

/-- Python `s.strip()`: remove leading and trailing whitespace. -/
def pyStrip (s : String) : String :=
  ⟨((s.toList.dropWhile Char.isWhitespace).reverse.dropWhile Char.isWhitespace).reverse⟩

/-- One decimal digit. -/
def digitVal (c : Char) : Nat := c.toNat - 48

/-- The character of one decimal digit. -/
def digitChar (n : Nat) : Char := Char.ofNat (48 + n)

/-- The decimal digits of a natural number, most significant first. -/
def natDigits (n : Nat) : List Char :=
  if _h : n < 10 then [digitChar n]
  else natDigits (n / 10) ++ [digitChar (n % 10)]
decreasing_by exact Nat.div_lt_self (by omega) (by omega)

/-- Decimal rendering of a natural number. -/
def natToDec (n : Nat) : String := ⟨natDigits n⟩

/-- The natural number denoted by a list of decimal digits. -/
def digitsToNat (ds : List Char) : Nat :=
  ds.foldl (fun a c => a * 10 + digitVal c) 0

/-- Parse an optional sign, returning the sign as `1` or `-1` and the rest. -/
def parseSign : List Char → Int × List Char
  | '-' :: cs => (-1, cs)
  | '+' :: cs => (1, cs)
  | cs => (1, cs)

/-- Parse the optional exponent suffix `e`/`E` followed by a signed integer;
fails (`none`) when an exponent marker is present but malformed, and returns
exponent `0` for the empty remainder. -/
def parseExp : List Char → Option Int
  | [] => some 0
  | e :: cs =>
    if e = 'e' ∨ e = 'E' then
      let (s, cs1) := parseSign cs
      let ds := cs1.takeWhile Char.isDigit
      let rest := cs1.dropWhile Char.isDigit
      if ds.isEmpty ∨ ¬ rest.isEmpty then none
      else some (s * (digitsToNat ds : Int))
    else none

/-- Model of Python `float(s)` on decimal numerals: optional surrounding
whitespace, optional sign, `digits[.digits]` or `.digits`, optional
`e`/`E` exponent.  (Python additionally accepts `inf`/`nan` spellings and
underscore digit separators; those are outside the numeric fragment the
script's data can contain and are not modelled.)  The result is the exact
rational value of the numeral. -/
def parseFloat (s : String) : Option ℚ :=
  let cs := (pyStrip s).toList
  let (sign, cs1) := parseSign cs
  let ip := cs1.takeWhile Char.isDigit
  let cs2 := cs1.dropWhile Char.isDigit
  let (fp, cs3) :=
    match cs2 with
    | '.' :: t => (t.takeWhile Char.isDigit, t.dropWhile Char.isDigit)
    | _ => ([], cs2)
  if ip.isEmpty ∧ fp.isEmpty then none
  else
    match parseExp cs3 with
    | none => none
    | some e =>
      let mantissa : ℚ :=
        (digitsToNat ip : ℚ) + (digitsToNat fp : ℚ) / ((10 : ℚ) ^ fp.length)
      some ((sign : ℚ) * mantissa * (10 : ℚ) ^ e)

/-- Python `float(v)` on the script's value universe: numbers and booleans
coerce, strings are parsed as decimal numerals, everything else raises
(`none`). -/
def pyFloat (v : Val) : Option ℚ :=
  match v with
  | .int n => some (n : ℚ)
  | .num q => some q
  | .bool b => some (if b then 1 else 0)
  | .str s => parseFloat s
  | _ => none

/-- Round to the nearest integer, ties to even — the rounding used by
`format(x, ".3f")` on the scaled value. -/
def roundHalfEven (q : ℚ) : ℤ :=
  let fl := ⌊q⌋
  let fr := q - (fl : ℚ)
  if fr < 1/2 then fl
  else if (1:ℚ)/2 < fr then fl + 1
  else if fl % 2 = 0 then fl else fl + 1

/-- Zero-pad a (3-digit-bounded) fractional part to width 3. -/
def pad3 (n : Nat) : String :=
  if n < 10 then "00" ++ natToDec n
  else if n < 100 then "0" ++ natToDec n
  else natToDec n

/-- Python `f"{q:.3f}"` on an exact value: fixed-point with exactly three
digits after the decimal point, ties to even, sign carried separately. -/
def formatFixed3 (q : ℚ) : String :=
  let m := roundHalfEven (|q| * 1000)
  let base := natToDec (m / 1000).toNat ++ "." ++ pad3 (m % 1000).toNat
  if q < 0 then "-" ++ base else base

/-- The script's `fmt3(v)`: `None` and `""` become `""`; a value
`float` accepts is rendered with three decimals; a value `float` rejects
is returned unchanged (the `except` branch). -/
def fmt3 (v : Val) : Val :=
  if isNoneOrEmptyStr v then .str ""
  else
    match pyFloat v with
    | some q => .str (formatFixed3 q)
    | none => v

/-- The script's `HITTER_COLS`. -/
def HITTER_COLS : List String :=
  ["Bats", "Name", "Age", "Team", "Season", "G", "AB", "PA", "H", "2B", "3B",
   "HR", "R", "RBI", "BB", "SO", "HBP", "SB", "CS", "AVG", "OBP", "SLG", "OPS"]

/-- The script's `normalize_hitter(row)`: build `mapped` by successive
dict assignments, then return `{k: mapped.get(k, "") for k in HITTER_COLS}`. -/
def normalize_hitter (row : Row) : Row :=
  let m : Row := []
  let m := dictSet m "Bats" (first_present row ["Bats", "Bat", "B"])
  let m := dictSet m "Name" (first_present row ["Name", "Player", "playerName", "PlayerName"])
  let m := dictSet m "Age" (first_present row ["Age"])
  let m := dictSet m "Team" (first_present row ["Team", "Tm", "TeamName", "AbbName"])
  let m := dictSet m "Season" (first_present row ["Season", "season", "Year"])
  let m := dictSet m "G" (first_present row ["G", "Games"])
  let m := dictSet m "AB" (first_present row ["AB"])
  let m := dictSet m "PA" (first_present row ["PA"])
  let m := dictSet m "H" (first_present row ["H", "Hits"])
  let m := dictSet m "2B" (first_present row ["2B", "Doubles"])
  let m := dictSet m "3B" (first_present row ["3B", "Triples"])
  let m := dictSet m "HR" (first_present row ["HR", "HomeRuns"])
  let m := dictSet m "R" (first_present row ["R", "Runs"])
  let m := dictSet m "RBI" (first_present row ["RBI"])
  let m := dictSet m "BB" (first_present row ["BB"])
  let m := dictSet m "SO" (first_present row ["SO", "K", "Ks"])
  let m := dictSet m "HBP" (first_present row ["HBP"])
  let m := dictSet m "SB" (first_present row ["SB"])
  let m := dictSet m "CS" (first_present row ["CS"])
  let m := dictSet m "AVG" (fmt3 (first_present row ["AVG", "BA", "Avg"]))
  let m := dictSet m "OBP" (fmt3 (first_present row ["OBP"]))
  let m := dictSet m "SLG" (fmt3 (first_present row ["SLG"]))
  let m := dictSet m "OPS" (fmt3 (first_present row ["OPS"]))
  HITTER_COLS.map (fun k => (k, rowGet m k (.str "")))

/-- The `isinstance(r, dict)` filter used on a candidate row list: keep only
object entries, as rows. -/
def keepDicts (xs : List Val) : List Row :=
  xs.filterMap (fun v => match v with | .obj o => some o | _ => none)

/-- The `for key in ("rows", "result", "results")` loop of `normalize_rows`:
return the dict entries of the first key holding a list, else `[]`. -/
def rowsLoop (payload : Row) : List String → List Row
  | [] => []
  | k :: ks =>
    match rowGet payload k .null with
    | .list xs => keepDicts xs
    | _ => rowsLoop payload ks

/-- The script's `normalize_rows(payload)`: try `payload.get("data")`
first, then the loop over `"rows"`, `"result"`, `"results"`. -/
def normalize_rows (payload : Row) : List Row :=
  match rowGet payload "data" .null with
  | .list xs => keepDicts xs
  | _ => rowsLoop payload ["rows", "result", "results"]

/-- Python `str(v)` for the value universe.  Exact for the types that can
actually reach `str()` in the script's keys (strings, ints, booleans,
`None`); for fractional numbers Python prints the shortest round-tripping
decimal of a binary float, which has no exact rational counterpart, so a
simple placeholder rendering is used — no claim depends on it; the
container cases (which Python would render via `repr`) are likewise
placeholders. -/
def pyStr (v : Val) : String :=
  match v with
  | .null => "None"
  | .bool b => if b then "True" else "False"
  | .int n => toString n
  | .num q => toString q.num ++ "/" ++ toString q.den
  | .str s => s
  | .list _ => "[...]"
  | .obj _ => "{...}"

/-- The player-id aliases probed by `merge_rows`. -/
def idAliases : List String :=
  ["playerid", "PlayerId", "playerId", "ID", "id"]

/-- Python `pid in ("", None)` for builtin JSON values: only the empty
string equals `""` and only `None` is `None`. -/
def pidBlank (v : Val) : Bool :=
  match v with
  | .null => true
  | .str "" => true
  | _ => false

/-- The `Name|Team` composite fallback key of `merge_rows`:
`str(r.get("Name","")).strip() + "|" + str(r.get("Team","")).strip()`. -/
def nameTeamKey (r : Row) : String :=
  pyStrip (pyStr (rowGet r "Name" (.str ""))) ++ "|" ++ pyStrip (pyStr (rowGet r "Team" (.str "")))

/-- The dedup key of `merge_rows`: `str(pid).strip()` when the first
present id alias is neither `""` nor `None`, else the composite key. -/
def rowKey (r : Row) : String :=
  let pid := first_present r idAliases
  if pidBlank pid then nameTeamKey r else pyStrip (pyStr pid)

/-- The `for r in all_rows + new_rows` loop of `merge_rows`, with the
`seen` set of keys carried explicitly (as a list queried by membership). -/
def mergeLoop (seen : List String) : List Row → List Row
  | [] => []
  | r :: rs =>
    let k := rowKey r
    if seen.contains k then mergeLoop seen rs
    else r :: mergeLoop (k :: seen) rs

/-- The script's `merge_rows(all_rows, new_rows)`. -/
def merge_rows (all_rows new_rows : List Row) : List Row :=
  mergeLoop [] (all_rows ++ new_rows)

/-- Python `range(0, stop, step)` for positive `step` (the only way the
script calls it): `[0, step, 2*step, ...)` below `stop`. -/
def rangeStep (stop step : Nat) : List Nat :=
  if step = 0 then [] else (List.range ((stop + step - 1) / step)).map (· * step)

/-- The script's `chunk(lst, n)`:
`[lst[i:i+n] for i in range(0, len(lst), n)]`, with the Python slice
`lst[i:i+n]` rendered as `take n (drop i lst)`. -/
def chunk (lst : List Int) (n : Nat) : List (List Int) :=
  (rangeStep lst.length n).map (fun i => (lst.drop i).take n)

/-- Outcome of one `requests.get` in `call_api`: either the request raised
(network error, timeout, ...) or an HTTP response arrived, carrying its
status and — when the body is valid JSON — the parsed payload. -/
inductive PyResp where
  | netExn
  | resp (status : Nat) (json : Option Row)

/-- The HTTP world seen by `call_api`: the outcome of the 1-based n-th call. -/
abbrev Client := Nat → PyResp

/-- The exceptions `call_api`'s `try` block can raise. -/
inductive ApiErr where
  | transientHttp (status : Nat)
  | httpStatus (status : Nat)
  | network
  | jsonDecode
  | unknown

/-- One iteration of `call_api`'s `try` body: the explicit transient-status
check, then `raise_for_status()` (which raises exactly for statuses in
`[400, 600)`), then `r.json()`. -/
def attemptResult (c : Client) (i : Nat) : Except ApiErr Row :=
  match c i with
  | .netExn => .error .network
  | .resp s j =>
    if s ∈ [429, 403, 502, 503, 504] then .error (.transientHttp s)
    else if 400 ≤ s ∧ s < 600 then .error (.httpStatus s)
    else
      match j with
      | some payload => .ok payload
      | none => .error .jsonDecode

/-- The `for attempt in range(1, tries + 1)` loop of `call_api`, run over
the list of remaining attempt numbers (so `rest = []` exactly when
`attempt == tries`).  Besides the result it returns the number of HTTP
calls made and the list of delays slept, so the retry claims are statable. -/
def callApiLoop (c : Client) (delay : ℚ) (lastErr : Option ApiErr) :
    List Nat → Except ApiErr Row × Nat × List ℚ
  | [] => (.error (lastErr.getD .unknown), 0, [])
  | a :: rest =>
    match attemptResult c a with
    | .ok payload => (.ok payload, 1, [])
    | .error e =>
      if rest.isEmpty then (.error e, 1, [])
      else
        let r := callApiLoop c (min (delay * 1.8) 20) (some e) rest
        (r.1, r.2.1 + 1, delay :: r.2.2)

/-- The script's `call_api(params, tries)`, abstracted over the HTTP
world `c`; `delay` starts at `2.0`. -/
def call_api (c : Client) (tries : Nat) : Except ApiErr Row × Nat × List ℚ :=
  callApiLoop c 2 none (List.range' 1 tries)

/-- The per-column candidate-key lists of `normalize_hitter`, as a table
(read off the assignments to `mapped`). -/
def hitterAliases : String → List String
  | "Bats" => ["Bats", "Bat", "B"]
  | "Name" => ["Name", "Player", "playerName", "PlayerName"]
  | "Age" => ["Age"]
  | "Team" => ["Team", "Tm", "TeamName", "AbbName"]
  | "Season" => ["Season", "season", "Year"]
  | "G" => ["G", "Games"]
  | "AB" => ["AB"]
  | "PA" => ["PA"]
  | "H" => ["H", "Hits"]
  | "2B" => ["2B", "Doubles"]
  | "3B" => ["3B", "Triples"]
  | "HR" => ["HR", "HomeRuns"]
  | "R" => ["R", "Runs"]
  | "RBI" => ["RBI"]
  | "BB" => ["BB"]
  | "SO" => ["SO", "K", "Ks"]
  | "HBP" => ["HBP"]
  | "SB" => ["SB"]
  | "CS" => ["CS"]
  | "AVG" => ["AVG", "BA", "Avg"]
  | "OBP" => ["OBP"]
  | "SLG" => ["SLG"]
  | "OPS" => ["OPS"]
  | _ => []

/-- A string is a fixed-point numeral with exactly three digits after the
decimal point: it contains a single `.`, and its last four characters are
`.` followed by three decimal digits. -/
def threeDecimals (s : String) : Bool :=
  (s.toList.count '.' == 1) &&
  (match s.toList.reverse with
   | d1 :: d2 :: d3 :: '.' :: _ => d1.isDigit && d2.isDigit && d3.isDigit
   | _ => false)

/-- Recursive characterisation of `chunk` (for positive batch size):
peel off the first `n` elements, recurse on the rest. -/
def chunkRec (n : Nat) : List Int → List (List Int)
  | [] => []
  | x :: xs =>
    if _h : n = 0 then []
    else (x :: xs).take n :: chunkRec n ((x :: xs).drop n)
termination_by l => l.length
decreasing_by simp; omega

/-- Keep only the first occurrence of each dedup key, in order — the
specification's reading of `merge_rows`:
"preserving first-seen order, removing duplicates". -/
def dedupFirst : List Row → List Row
  | [] => []
  | r :: rs => r :: dedupFirst (rs.filter (fun x => rowKey x != rowKey r))
termination_by l => l.length
decreasing_by exact Nat.lt_succ_of_le (List.length_filter_le _ _)

/-- Modelled from the spec for the refinement claim about row extraction:
"locate the list of result rows by checking, in order, the keys `data`,
`rows`, `result`, `results`; return the first list found, filtering out
any non-object entries; return an empty list if none of the keys hold a
list". -/
def extractRowsSpec (payload : Row) : List String → List Row
  | [] => []
  | k :: ks =>
    match rowGet? payload k with
    | some (.list xs) => xs.filterMap (fun v => match v with | .obj o => some o | _ => none)
    | _ => extractRowsSpec payload ks

/-! ### Helper lemmas -/

/-- Writing `normalize_hitter` out: the 23 fixed columns in order, each
bound to its resolved (and, for rate stats, formatted) value. -/
theorem normalize_hitter_eq (row : Row) :
    normalize_hitter row =
      [("Bats", first_present row ["Bats", "Bat", "B"]),
       ("Name", first_present row ["Name", "Player", "playerName", "PlayerName"]),
       ("Age", first_present row ["Age"]),
       ("Team", first_present row ["Team", "Tm", "TeamName", "AbbName"]),
       ("Season", first_present row ["Season", "season", "Year"]),
       ("G", first_present row ["G", "Games"]),
       ("AB", first_present row ["AB"]),
       ("PA", first_present row ["PA"]),
       ("H", first_present row ["H", "Hits"]),
       ("2B", first_present row ["2B", "Doubles"]),
       ("3B", first_present row ["3B", "Triples"]),
       ("HR", first_present row ["HR", "HomeRuns"]),
       ("R", first_present row ["R", "Runs"]),
       ("RBI", first_present row ["RBI"]),
       ("BB", first_present row ["BB"]),
       ("SO", first_present row ["SO", "K", "Ks"]),
       ("HBP", first_present row ["HBP"]),
       ("SB", first_present row ["SB"]),
       ("CS", first_present row ["CS"]),
       ("AVG", fmt3 (first_present row ["AVG", "BA", "Avg"])),
       ("OBP", fmt3 (first_present row ["OBP"])),
       ("SLG", fmt3 (first_present row ["SLG"])),
       ("OPS", fmt3 (first_present row ["OPS"]))] := by
  simp [normalize_hitter, HITTER_COLS, dictSet, hasKey, rowGet, rowGet?]

/-- When no candidate key is present, `first_present` returns `""`. -/
theorem first_present_absent (row : Row) :
    ∀ keys : List String, (∀ a ∈ keys, hasKey row a = false) →
      first_present row keys = .str ""
  | [], _ => rfl
  | k :: ks, h => by
    rw [first_present, if_neg (by simp [h k (by simp)])]
    exact first_present_absent row ks (fun a ha => h a (by simp [ha]))

/-- Here `first_present` returns the value of the first present key: all keys
before `k` absent and `k` present means the result is `row.get(k)`. -/
theorem first_present_found (row : Row) (k : String) (l2 : List String)
    (hk : hasKey row k = true) :
    ∀ l1 : List String, (∀ a ∈ l1, hasKey row a = false) →
      first_present row (l1 ++ k :: l2) = rowGet row k .null
  | [], _ => by rw [List.nil_append, first_present, if_pos hk]; rfl
  | a :: l1, h => by
    rw [List.cons_append, first_present, if_neg (by simp [h a (by simp)])]
    exact first_present_found row k l2 hk l1 (fun b hb => h b (by simp [hb]))

/-! ### Claim theorems -/

/-- C1: for every input row, `normalize_hitter` returns a row whose key
list is exactly the 23 fixed hitter columns — never more, never fewer,
whatever keys the input supplies. -/
theorem normalize_hitter_keys_exact :
    (∀ row : Row, (normalize_hitter row).map Prod.fst = HITTER_COLS) ∧
    HITTER_COLS.length = 23 ∧ HITTER_COLS.Nodup := by
  refine ⟨fun row => ?_, by decide, by decide⟩
  rw [normalize_hitter_eq]
  rfl

/-- C5: `first_present` returns the value of the first candidate key that
exists in the row (existence, not truthiness, decides) and `""` when none
exists; consequently, a raw row missing every alias of a column
normalizes to `""` in that column, for each of the 23 output columns. -/
theorem first_present_contract :
    (∀ (row : Row) (l1 : List String) (k : String) (l2 : List String),
        (∀ a ∈ l1, hasKey row a = false) → hasKey row k = true →
        first_present row (l1 ++ k :: l2) = rowGet row k .null) ∧
    (∀ (row : Row) (keys : List String),
        (∀ a ∈ keys, hasKey row a = false) → first_present row keys = .str "") ∧
    (∀ (row : Row) (c : String), c ∈ HITTER_COLS →
        (∀ a ∈ hitterAliases c, hasKey row a = false) →
        rowGet? (normalize_hitter row) c = some (.str "")) := by
  refine ⟨fun row l1 k l2 h1 hk => first_present_found row k l2 hk l1 h1,
          fun row keys h => first_present_absent row keys h,
          fun row c hc hab => ?_⟩
  rw [normalize_hitter_eq]
  fin_cases hc <;>
    simp only [hitterAliases] at hab <;>
    simp [rowGet?, first_present_absent row _ hab, fmt3, isNoneOrEmptyStr]

/-- Witness for C5 at concrete inputs: in `[("b", 0)]` the first present
key among `a`, `b`, `c` is `b` (value `0`, falsy but chosen), and a row
with no recognized keys normalizes to `""` in the `HR` column. -/
theorem first_present_contract_witness :
    first_present [("b", .int 0)] (["a"] ++ "b" :: ["c"]) = .int 0 ∧
    rowGet? (normalize_hitter [("XYZ", .int 1)]) "HR" = some (.str "") := by
  constructor
  · exact (first_present_contract.1 [("b", .int 0)] ["a"] "b" ["c"]
      (by decide) (by decide)).trans rfl
  · exact first_present_contract.2.2 [("XYZ", .int 1)] "HR" (by decide) (by decide)


/-- Python `range(0, 0, step)` is empty. -/
theorem rangeStep_zero (step : Nat) : rangeStep 0 step = [] := by
  simp only [rangeStep]
  split
  · rfl
  · next h =>
      rw [Nat.zero_add, Nat.div_eq_of_lt (by omega)]
      rfl

/-- Peeling the first index off `range(0, stop, step)` for positive
`stop` and `step`. -/
theorem rangeStep_cons (stop step : Nat) (hs : 0 < step) (h : 0 < stop) :
    rangeStep stop step = 0 :: (rangeStep (stop - step) step).map (· + step) := by
  simp only [rangeStep, if_neg (by omega : ¬ step = 0)]
  have hc : (stop + step - 1) / step = (stop - step + step - 1) / step + 1 := by
    have e1 : stop + step - 1 = (stop - 1) + step := by omega
    rw [e1, Nat.add_div_right _ hs]
    rcases le_or_lt step stop with hle | hlt
    · have e2 : stop - step + step - 1 = stop - 1 := by omega
      rw [e2]
    · have e2 : stop - step + step - 1 = step - 1 := by omega
      rw [e2, Nat.div_eq_of_lt (by omega), Nat.div_eq_of_lt (by omega)]
  rw [hc, List.range_succ_eq_map]
  simp only [List.map_cons, Nat.zero_mul, List.map_map]
  congr 1
  apply List.map_congr_left
  intro j _
  simp only [Function.comp_apply, Nat.succ_eq_add_one]
  ring

/-- Unfolding `chunk` one batch at a time. -/
theorem chunk_cons (l : List Int) (n : Nat) (hn : 0 < n) (hl : l ≠ []) :
    chunk l n = l.take n :: chunk (l.drop n) n := by
  unfold chunk
  rw [rangeStep_cons _ _ hn (by simpa [List.length_pos] using hl)]
  simp only [List.map_cons, List.drop_zero, List.map_map, List.length_drop]
  congr 1
  apply List.map_congr_left
  intro j _
  simp only [Function.comp_apply]
  rw [List.drop_drop, Nat.add_comm]

/-- The function `chunk` agrees with its recursive characterisation. -/
theorem chunk_eq_chunkRec (n : Nat) (hn : 0 < n) (l : List Int) :
    chunk l n = chunkRec n l := by
  have key : ∀ (len : Nat) (l : List Int), l.length = len → chunk l n = chunkRec n l := by
    intro len
    induction len using Nat.strong_induction_on with
    | _ len ih =>
      intro l hlen
      cases l with
      | nil => simp [chunk, rangeStep_zero, chunkRec]
      | cons x xs =>
        rw [chunk_cons _ _ hn (by simp), chunkRec, dif_neg (by omega)]
        congr 1
        exact ih ((x :: xs).drop n).length (by simp [← hlen]; omega) _ rfl
  exact key l.length l rfl

/-- The chunks concatenate back to the original list. -/
theorem chunkRec_flatten (n : Nat) (hn : 0 < n) (l : List Int) :
    (chunkRec n l).flatten = l := by
  have key : ∀ (len : Nat) (l : List Int), l.length = len → (chunkRec n l).flatten = l := by
    intro len
    induction len using Nat.strong_induction_on with
    | _ len ih =>
      intro l hlen
      cases l with
      | nil => simp [chunkRec]
      | cons x xs =>
        rw [chunkRec, dif_neg (by omega), List.flatten_cons,
          ih ((x :: xs).drop n).length (by simp [← hlen]; omega) _ rfl,
          List.take_append_drop]
  exact key l.length l rfl

/-- Every chunk is nonempty and no longer than the batch size. -/
theorem chunkRec_mem_length (n : Nat) (hn : 0 < n) (l : List Int) :
    ∀ c ∈ chunkRec n l, 0 < c.length ∧ c.length ≤ n := by
  have key : ∀ (len : Nat) (l : List Int), l.length = len →
      ∀ c ∈ chunkRec n l, 0 < c.length ∧ c.length ≤ n := by
    intro len
    induction len using Nat.strong_induction_on with
    | _ len ih =>
      intro l hlen c hc
      cases l with
      | nil => simp [chunkRec] at hc
      | cons x xs =>
        rw [chunkRec, dif_neg (by omega)] at hc
        rcases List.mem_cons.mp hc with h | h
        · subst h
          simp only [List.length_take, List.length_cons]
          omega
        · exact ih ((x :: xs).drop n).length (by simp [← hlen]; omega) _ rfl c h
  exact key l.length l rfl

/-- Chunking yields no chunks only for the empty list. -/
theorem chunkRec_eq_nil_iff (n : Nat) (hn : 0 < n) (l : List Int) :
    chunkRec n l = [] ↔ l = [] := by
  cases l with
  | nil => simp [chunkRec]
  | cons x xs => rw [chunkRec, dif_neg (by omega)]; simp

/-- Every chunk except the last has length exactly the batch size. -/
theorem chunkRec_dropLast_length (n : Nat) (hn : 0 < n) (l : List Int) :
    ∀ c ∈ (chunkRec n l).dropLast, c.length = n := by
  have key : ∀ (len : Nat) (l : List Int), l.length = len →
      ∀ c ∈ (chunkRec n l).dropLast, c.length = n := by
    intro len
    induction len using Nat.strong_induction_on with
    | _ len ih =>
      intro l hlen c hc
      cases l with
      | nil => simp [chunkRec] at hc
      | cons x xs =>
        rw [chunkRec, dif_neg (by omega)] at hc
        by_cases hrest : chunkRec n ((x :: xs).drop n) = []
        · rw [hrest] at hc
          simp at hc
        · rw [List.dropLast_cons_of_ne_nil hrest] at hc
          rcases List.mem_cons.mp hc with h | h
          · subst h
            have hne : (x :: xs).drop n ≠ [] :=
              fun he => hrest (by rw [he]; simp [chunkRec])
            have hlt : n < (x :: xs).length := by
              by_contra hle
              exact hne (List.drop_of_length_le (by omega))
            simp only [List.length_take]
            omega
          · exact ih ((x :: xs).drop n).length (by simp [← hlen]; omega) _ rfl c h
  exact key l.length l rfl

/-- C9: `chunk` partitions its input: for positive batch size every chunk
except possibly the last has length exactly `n`, every chunk is nonempty
and at most `n` long, and the chunks concatenate back to the input; in
particular 58 IDs at batch size 40 give batches of sizes 40 and 18. -/
theorem chunk_partition :
    (∀ (l : List Int) (n : Nat), 0 < n →
        (chunk l n).flatten = l ∧
        (∀ c ∈ (chunk l n).dropLast, c.length = n) ∧
        (∀ c ∈ chunk l n, 0 < c.length ∧ c.length ≤ n)) ∧
    (chunk (List.replicate 58 (0 : Int)) 40).map List.length = [40, 18] := by
  refine ⟨fun l n hn => ?_, rfl⟩
  rw [chunk_eq_chunkRec n hn]
  exact ⟨chunkRec_flatten n hn l, chunkRec_dropLast_length n hn l,
    chunkRec_mem_length n hn l⟩

/-- Witness for C9: the partition property evaluated on a concrete list of
four IDs at batch size 3. -/
theorem chunk_partition_witness :
    (0 : Nat) < 3 ∧
    ((chunk [(5 : Int), 6, 7, 8] 3).flatten = [5, 6, 7, 8] ∧
     (∀ c ∈ (chunk [(5 : Int), 6, 7, 8] 3).dropLast, c.length = 3) ∧
     (∀ c ∈ chunk [(5 : Int), 6, 7, 8] 3, 0 < c.length ∧ c.length ≤ 3)) :=
  ⟨by decide, chunk_partition.1 [5, 6, 7, 8] 3 (by decide)⟩

/-- The fallback key loop of `normalize_rows` agrees with the spec's
uniform first-list-wins reading. -/
theorem rowsLoop_eq_spec (payload : Row) :
    ∀ ks : List String, rowsLoop payload ks = extractRowsSpec payload ks
  | [] => rfl
  | k :: ks => by
    simp only [rowsLoop, extractRowsSpec, rowGet]
    cases h : rowGet? payload k with
    | none => simp [rowsLoop_eq_spec payload ks]
    | some v => cases v <;> simp [rowsLoop_eq_spec payload ks, keepDicts]

/-- C6: `normalize_rows` checks `data`, `rows`, `result`, `results` in
order, returns the first list found filtered to its object entries, and
`[]` when no key holds a list; a mixed `data` list keeps exactly the
objects, and an unrecognized payload yields `[]`. -/
theorem normalize_rows_contract :
    (∀ payload : Row,
        normalize_rows payload =
          extractRowsSpec payload ["data", "rows", "result", "results"]) ∧
    normalize_rows [("foo", .int 1)] = [] ∧
    normalize_rows [("data", .list [.obj [("a", .int 1)], .int 5, .str "x", .obj []])] =
      [[("a", .int 1)], []] := by
  refine ⟨fun payload => ?_, rfl, rfl⟩
  simp only [normalize_rows, extractRowsSpec, rowGet]
  cases h : rowGet? payload "data" with
  | none => simp [rowsLoop_eq_spec, extractRowsSpec]
  | some v => cases v <;> simp [rowsLoop_eq_spec, extractRowsSpec, keepDicts]

/-- Filtering out rows whose key was already seen, then rows with key `k`,
is filtering against `k :: seen`. -/
theorem filter_key_cons_seen (rs : List Row) (k : String) (seen : List String) :
    (rs.filter (fun x => !(seen.contains (rowKey x)))).filter (fun x => rowKey x != k) =
    rs.filter (fun x => !((k :: seen).contains (rowKey x))) := by
  rw [List.filter_filter]
  apply List.filter_congr
  intro x _
  by_cases h1 : rowKey x = k
  · simp [h1]
  · by_cases h2 : rowKey x ∈ seen
    · simp [h1, h2]
    · simp [h1, h2]

/-- The merge loop keeps the first row of each dedup key: with `seen` keys
already recorded, it deduplicates the rows whose keys are unseen. -/
theorem mergeLoop_eq_dedupFirst :
    ∀ (l : List Row) (seen : List String),
      mergeLoop seen l = dedupFirst (l.filter (fun r => !(seen.contains (rowKey r))))
  | [], seen => by simp [mergeLoop, dedupFirst]
  | r :: rs, seen => by
    rw [mergeLoop, List.filter_cons]
    by_cases h : List.contains seen (rowKey r)
    · rw [if_pos h]
      simp only [h, Bool.not_true, if_neg]
      exact mergeLoop_eq_dedupFirst rs seen
    · rw [if_neg h]
      simp only [Bool.not_eq_true', ← Bool.not_eq_true] at h
      simp only [h, Bool.not_false, if_pos]
      rw [dedupFirst, mergeLoop_eq_dedupFirst rs (rowKey r :: seen), filter_key_cons_seen]

/-- Merging is exactly first-occurrence deduplication by `rowKey` of
the concatenated inputs. -/
theorem merge_rows_eq_dedupFirst (a b : List Row) :
    merge_rows a b = dedupFirst (a ++ b) := by
  rw [merge_rows, mergeLoop_eq_dedupFirst]
  congr 1
  simp

/-- Deduplicating a list appended to itself deduplicates the list. -/
theorem dedupFirst_append_self (l : List Row) :
    dedupFirst (l ++ l) = dedupFirst l := by
  have key : ∀ (len : Nat) (l : List Row), l.length = len →
      dedupFirst (l ++ l) = dedupFirst l := by
    intro len
    induction len using Nat.strong_induction_on with
    | _ len ih =>
      intro l hlen
      cases l with
      | nil => rfl
      | cons r rs =>
        have hfr : (rowKey r != rowKey r) = false := by simp
        rw [List.cons_append, dedupFirst, dedupFirst]
        congr 1
        rw [List.filter_append, List.filter_cons, hfr]
        simp only [if_neg Bool.false_ne_true]
        exact ih (rs.filter (fun x => rowKey x != rowKey r)).length
          (by simp [← hlen]; exact Nat.lt_succ_of_le (List.length_filter_le _ _)) _ rfl
  exact key l.length l rfl

/-- C7: `merge_rows` is idempotent — merging a list with itself yields the
same deduplicated list as merging it with nothing. -/
theorem merge_rows_idempotent : ∀ R : List Row, merge_rows R R = merge_rows R [] := by
  intro R
  rw [merge_rows_eq_dedupFirst, merge_rows_eq_dedupFirst, List.append_nil]
  exact dedupFirst_append_self R

/-- C8: `merge_rows` preserves first-seen order while removing duplicates:
it is first-occurrence deduplication by dedup key of the concatenation of
its inputs, and on rows `A`, `B`, `C` with pairwise-distinct keys,
`merge_rows [A, B] [B, C] = [A, B, C]`. -/
theorem merge_rows_first_seen_order :
    (∀ a b : List Row, merge_rows a b = dedupFirst (a ++ b)) ∧
    (∀ A B C : Row, rowKey A ≠ rowKey B → rowKey A ≠ rowKey C → rowKey B ≠ rowKey C →
        merge_rows [A, B] [B, C] = [A, B, C]) := by
  refine ⟨merge_rows_eq_dedupFirst, fun A B C hAB hAC hBC => ?_⟩
  have h1 : (rowKey B == rowKey A) = false := by simp [Ne.symm hAB]
  have h2 : (rowKey C == rowKey A) = false := by simp [Ne.symm hAC]
  have h3 : (rowKey C == rowKey B) = false := by simp [Ne.symm hBC]
  simp [merge_rows, mergeLoop, List.contains, List.elem, h1, h2, h3]

/-- Witness for C8: three one-field rows with distinct player ids merge to
`[A, B, C]` from the overlapping batches `[A, B]` and `[B, C]`. -/
theorem merge_rows_first_seen_order_witness :
    (rowKey [("playerid", (.int 1 : Val))] ≠ rowKey [("playerid", (.int 2 : Val))] ∧
     rowKey [("playerid", (.int 1 : Val))] ≠ rowKey [("playerid", (.int 3 : Val))] ∧
     rowKey [("playerid", (.int 2 : Val))] ≠ rowKey [("playerid", (.int 3 : Val))]) ∧
    merge_rows [[("playerid", (.int 1 : Val))], [("playerid", (.int 2 : Val))]]
      [[("playerid", (.int 2 : Val))], [("playerid", (.int 3 : Val))]] =
      [[("playerid", (.int 1 : Val))], [("playerid", (.int 2 : Val))],
       [("playerid", (.int 3 : Val))]] :=
  ⟨⟨by decide, by decide, by decide⟩,
   merge_rows_first_seen_order.2 _ _ _ (by decide) (by decide) (by decide)⟩

/-- C10: a row whose first present player-id alias is `""` or `None` is
keyed by the `Name|Team` composite; hence two rows with blank or absent
ids and the same whitespace-stripped `Name` and `Team` collapse to the
first row seen, whatever their other fields. -/
theorem blank_id_dedups_by_name_team :
    (∀ r : Row, pidBlank (first_present r idAliases) = true → rowKey r = nameTeamKey r) ∧
    (∀ r1 r2 : Row,
        pidBlank (first_present r1 idAliases) = true →
        pidBlank (first_present r2 idAliases) = true →
        pyStrip (pyStr (rowGet r1 "Name" (.str ""))) = pyStrip (pyStr (rowGet r2 "Name" (.str ""))) →
        pyStrip (pyStr (rowGet r1 "Team" (.str ""))) = pyStrip (pyStr (rowGet r2 "Team" (.str ""))) →
        merge_rows [r1] [r2] = [r1]) := by
  have hkey : ∀ r : Row, pidBlank (first_present r idAliases) = true → rowKey r = nameTeamKey r := by
    intro r h
    simp [rowKey, h]
  refine ⟨hkey, fun r1 r2 h1 h2 hn ht => ?_⟩
  have hnt : nameTeamKey r1 = nameTeamKey r2 := by
    rw [nameTeamKey, nameTeamKey, hn, ht]
  have hk : rowKey r2 = rowKey r1 := by rw [hkey r1 h1, hkey r2 h2, hnt]
  simp [merge_rows, mergeLoop, List.contains, List.elem, hk]

/-- Witness for C10: a row with a blank `playerid` and a row with no id
alias at all, whose stripped names and teams agree, collapse to the first
row even though their `HR` fields differ. -/
theorem blank_id_dedups_by_name_team_witness :
    merge_rows [[("playerid", (.str "" : Val)), ("Name", .str "John Doe"),
                 ("Team", .str "NYA"), ("HR", .int 10)]]
      [[("Name", (.str " John Doe " : Val)), ("Team", .str "NYA"), ("HR", .int 99)]] =
      [[("playerid", (.str "" : Val)), ("Name", .str "John Doe"),
        ("Team", .str "NYA"), ("HR", .int 10)]] :=
  blank_id_dedups_by_name_team.2 _ _ (by decide) (by decide) (by decide) (by decide)

/-- C2 (amended): a response whose status is non-2xx and outside the
transient set `{429, 403, 502, 503, 504}` but in `[400, 600)` (e.g. 404)
makes `raise_for_status` raise, yet the `except` clause catches that error
like any other, so `call_api` retries: with every call returning such a
status it performs all 6 attempts and only then surfaces the HTTP error —
it does not fail immediately on the first attempt. -/
theorem call_api_hard_http_retries :
    ∀ (s : Nat) (j : Option Row) (c : Client),
      400 ≤ s → s < 600 → s ∉ [429, 403, 502, 503, 504] →
      (∀ i, c i = .resp s j) →
      (call_api c 6).1 = .error (.httpStatus s) ∧ (call_api c 6).2.1 = 6 := by
  intro s j c h4 h6 hns h
  have ha : ∀ i, attemptResult c i = .error (.httpStatus s) := by
    intro i
    simp [attemptResult, h i, hns, h4, h6]
  simp [call_api, callApiLoop, ha, List.range']

/-- C3: a client answering 503 on the first `N - 1` calls and 200 with a
JSON payload on call `N` succeeds whenever `N ≤ 6`; a client answering 503
on every call makes `call_api` fail with the last transient error after
exactly 6 calls (no 7th), sleeping delays 2, 3.6, 6.48, 11.664, 20 —
start 2, multiplied by 1.8, capped at 20. -/
theorem call_api_retry_transient :
    (∀ (N : Nat) (p : Row) (c : Client), 1 ≤ N → N ≤ 6 →
        (∀ i, 1 ≤ i → i < N → c i = .resp 503 none) →
        c N = .resp 200 (some p) →
        (call_api c 6).1 = .ok p) ∧
    (∀ c : Client, (∀ i, c i = .resp 503 none) →
        (call_api c 6).1 = .error (.transientHttp 503) ∧
        (call_api c 6).2.1 = 6 ∧
        (call_api c 6).2.2 = [2, 3.6, 6.48, 11.664, 20]) := by
  constructor
  · intro N p c hN1 hN6 hpre hlast
    interval_cases N
    · simp [call_api, callApiLoop, attemptResult, hlast, List.range']
    · have c1 := hpre 1 (by omega) (by omega)
      simp [call_api, callApiLoop, attemptResult, c1, hlast, List.range']
    · have c1 := hpre 1 (by omega) (by omega)
      have c2 := hpre 2 (by omega) (by omega)
      simp [call_api, callApiLoop, attemptResult, c1, c2, hlast, List.range']
    · have c1 := hpre 1 (by omega) (by omega)
      have c2 := hpre 2 (by omega) (by omega)
      have c3 := hpre 3 (by omega) (by omega)
      simp [call_api, callApiLoop, attemptResult, c1, c2, c3, hlast, List.range']
    · have c1 := hpre 1 (by omega) (by omega)
      have c2 := hpre 2 (by omega) (by omega)
      have c3 := hpre 3 (by omega) (by omega)
      have c4 := hpre 4 (by omega) (by omega)
      simp [call_api, callApiLoop, attemptResult, c1, c2, c3, c4, hlast, List.range']
    · have c1 := hpre 1 (by omega) (by omega)
      have c2 := hpre 2 (by omega) (by omega)
      have c3 := hpre 3 (by omega) (by omega)
      have c4 := hpre 4 (by omega) (by omega)
      have c5 := hpre 5 (by omega) (by omega)
      simp [call_api, callApiLoop, attemptResult, c1, c2, c3, c4, c5, hlast, List.range']
  · intro c h
    have m1 : min ((2 : ℚ) * 1.8) 20 = 3.6 := by norm_num [min_def]
    have m2 : min ((3.6 : ℚ) * 1.8) 20 = 6.48 := by norm_num [min_def]
    have m3 : min ((6.48 : ℚ) * 1.8) 20 = 11.664 := by norm_num [min_def]
    have m4 : min ((11.664 : ℚ) * 1.8) 20 = 20 := by norm_num [min_def]
    have m5 : min ((20 : ℚ) * 1.8) 20 = 20 := by norm_num [min_def]
    have ha : ∀ i, attemptResult c i = .error (.transientHttp 503) := by
      intro i
      simp [attemptResult, h i]
    refine ⟨?_, ?_, ?_⟩ <;>
      simp [call_api, callApiLoop, ha, List.range', m1, m2, m3, m4, m5]


/-- Counterexample to C2 as stated: with every call returning HTTP 404
(a non-2xx status outside the transient set), `call_api` performs 6 calls,
not 1 — the claim that it fails immediately with no retry is false. -/
theorem call_api_404_no_immediate_fail_cex :
    (call_api (fun _ => .resp 404 none) 6).2.1 = 6 ∧
    ¬ ((call_api (fun _ => .resp 404 none) 6).2.1 = 1) :=
  ⟨rfl, by decide⟩

/-- Witness for the amended C2 at status 404: the error surfaced is the
HTTP error and 6 calls are made. -/
theorem call_api_hard_http_retries_witness :
    (call_api (fun _ => .resp 404 none) 6).1 = .error (.httpStatus 404) ∧
    (call_api (fun _ => .resp 404 none) 6).2.1 = 6 :=
  call_api_hard_http_retries 404 none _ (by decide) (by decide) (by decide)
    (fun _ => rfl)

/-- Witness for C3: a client that returns 503 twice and then 200 with an
empty JSON object succeeds with that payload. -/
theorem call_api_retry_transient_witness :
    (call_api (fun i => if i < 3 then .resp 503 none else .resp 200 (some [])) 6).1 =
      .ok [] :=
  call_api_retry_transient.1 3 [] _ (by decide) (by decide)
    (fun i _ h2 => by simp [h2]) (by norm_num)

theorem digitChar_isDigit (n : Nat) (h : n < 10) : (digitChar n).isDigit = true := by
  interval_cases n <;> decide

theorem isDigit_ne_dot (c : Char) (h : c.isDigit = true) : c ≠ '.' := by
  intro he
  rw [he] at h
  exact absurd h (by decide)

theorem natDigits_all_digit (n : Nat) : ∀ c ∈ natDigits n, c.isDigit = true := by
  induction n using Nat.strong_induction_on with
  | _ n ih =>
    intro c hc
    by_cases h : n < 10
    · rw [natDigits, dif_pos h] at hc
      simp at hc
      subst hc
      exact digitChar_isDigit n h
    · rw [natDigits, dif_neg h] at hc
      rcases List.mem_append.mp hc with h1 | h1
      · exact ih (n / 10) (Nat.div_lt_self (by omega) (by omega)) c h1
      · simp at h1
        subst h1
        exact digitChar_isDigit (n % 10) (Nat.mod_lt _ (by omega))

theorem natDigits_ne_nil (n : Nat) : natDigits n ≠ [] := by
  by_cases h : n < 10
  · rw [natDigits, dif_pos h]; simp
  · rw [natDigits, dif_neg h]; simp

theorem natDigits_length_one (n : Nat) (h : n < 10) : (natDigits n).length = 1 := by
  rw [natDigits, dif_pos h]
  rfl

theorem natDigits_length_two (n : Nat) (h1 : 10 ≤ n) (h2 : n < 100) :
    (natDigits n).length = 2 := by
  rw [natDigits, dif_neg (by omega)]
  rw [List.length_append, natDigits_length_one (n / 10) (by omega)]
  rfl

theorem natDigits_length_three (n : Nat) (h1 : 100 ≤ n) (h2 : n < 1000) :
    (natDigits n).length = 3 := by
  rw [natDigits, dif_neg (by omega)]
  rw [List.length_append, natDigits_length_two (n / 10) (by omega) (by omega)]
  rfl

theorem pad3_shape (n : Nat) (h : n < 1000) :
    ∃ a b c : Char, (pad3 n).toList = [a, b, c] ∧
      a.isDigit = true ∧ b.isDigit = true ∧ c.isDigit = true := by
  have hall : ∀ c ∈ (pad3 n).toList, c.isDigit = true := by
    intro c hc
    unfold pad3 at hc
    split at hc
    · rw [(rfl : ("00" ++ natToDec n).toList = '0' :: '0' :: natDigits n)] at hc
      have hd : c = '0' ∨ c ∈ natDigits n := by simpa using hc
      rcases hd with h1 | h1
      · subst h1; decide
      · exact natDigits_all_digit n c h1
    · split at hc
      · rw [(rfl : ("0" ++ natToDec n).toList = '0' :: natDigits n)] at hc
        have hd : c = '0' ∨ c ∈ natDigits n := by simpa using hc
        rcases hd with h1 | h1
        · subst h1; decide
        · exact natDigits_all_digit n c h1
      · exact natDigits_all_digit n c (by simpa [natToDec] using hc)
  have hlen : (pad3 n).toList.length = 3 := by
    unfold pad3
    split
    · next h10 =>
      have : ("00" ++ natToDec n).toList = '0' :: '0' :: natDigits n := rfl
      rw [this]
      simp [natDigits_length_one n h10]
    · next h10 =>
      split
      · next h100 =>
        have : ("0" ++ natToDec n).toList = '0' :: natDigits n := rfl
        rw [this]
        simp [natDigits_length_two n (by omega) (by omega)]
      · next h100 =>
        have : (natToDec n).toList = natDigits n := rfl
        rw [this]
        exact natDigits_length_three n (by omega) h
  match hx : (pad3 n).toList, hlen with
  | [a, b, c], _ =>
    exact ⟨a, b, c, rfl, hall a (by rw [hx]; simp), hall b (by rw [hx]; simp),
      hall c (by rw [hx]; simp)⟩

theorem threeDecimals_of_shape (pre : List Char) (a b c : Char)
    (hpre : ∀ x ∈ pre, x ≠ '.') (ha : a.isDigit = true) (hb : b.isDigit = true)
    (hc : c.isDigit = true) :
    threeDecimals ⟨pre ++ '.' :: [a, b, c]⟩ = true := by
  unfold threeDecimals
  dsimp only [String.toList]
  have hcount : (pre ++ '.' :: [a, b, c]).count '.' = 1 := by
    rw [List.count_append]
    have h0 : pre.count '.' = 0 := List.count_eq_zero.mpr (fun h => hpre '.' h rfl)
    have h1 : ('.' :: [a, b, c]).count '.' = 1 := by
      rw [List.count_cons_self]
      have : ([a, b, c] : List Char).count '.' = 0 := by
        apply List.count_eq_zero.mpr
        intro hmem
        simp at hmem
        rcases hmem with h | h | h <;> (subst h)
        · exact isDigit_ne_dot _ ha rfl
        · exact isDigit_ne_dot _ hb rfl
        · exact isDigit_ne_dot _ hc rfl
      omega
    omega
  have hrev : (pre ++ '.' :: [a, b, c]).reverse = c :: b :: a :: '.' :: pre.reverse := by
    rw [List.reverse_append]
    rfl
  rw [hcount, hrev]
  simp [ha, hb, hc]

theorem formatFixed3_shape (q : ℚ) :
    ∃ (pre : List Char) (a b c : Char),
      formatFixed3 q = ⟨pre ++ '.' :: [a, b, c]⟩ ∧
      (∀ x ∈ pre, x ≠ '.') ∧ a.isDigit = true ∧ b.isDigit = true ∧ c.isDigit = true := by
  unfold formatFixed3
  set m := roundHalfEven (|q| * 1000) with hm
  have hfr : (m % 1000).toNat < 1000 := by
    have h1 := Int.emod_lt_of_pos m (show (0 : ℤ) < 1000 by norm_num)
    have h2 := Int.emod_nonneg m (show (1000 : ℤ) ≠ 0 by norm_num)
    omega
  obtain ⟨a, b, c, hpad, ha, hb, hc⟩ := pad3_shape _ hfr
  have hb3 : pad3 (m % 1000).toNat = ⟨[a, b, c]⟩ := by
    cases hps : pad3 (m % 1000).toNat with
    | mk l => rw [hps] at hpad; exact congrArg String.mk hpad
  have hdig : ∀ x ∈ natDigits (m / 1000).toNat, x ≠ '.' :=
    fun x hx => isDigit_ne_dot x (natDigits_all_digit _ x hx)
  by_cases hq : q < 0
  · refine ⟨'-' :: natDigits (m / 1000).toNat, a, b, c, ?_, ?_, ha, hb, hc⟩
    · rw [if_pos hq, hb3]
      apply congrArg String.mk
      simp
    · intro x hx
      rcases List.mem_cons.mp hx with h1 | h1
      · subst h1; decide
      · exact hdig x h1
  · refine ⟨natDigits (m / 1000).toNat, a, b, c, ?_, hdig, ha, hb, hc⟩
    rw [if_neg hq, hb3]
    apply congrArg String.mk
    simp

theorem formatFixed3_threeDecimals (q : ℚ) : threeDecimals (formatFixed3 q) = true := by
  obtain ⟨pre, a, b, c, heq, hpre, ha, hb, hc⟩ := formatFixed3_shape q
  rw [heq]
  exact threeDecimals_of_shape pre a b c hpre ha hb hc


/-- C4: `fmt3` maps `None` and `""` to `""`, renders every value that
`float` accepts as a fixed-point string with exactly three digits after
the decimal point, and passes every value `float` rejects through
unchanged — in particular `fmt3("0.3") = "0.300"`, `fmt3("abc") = "abc"`
— and, being a total function, never raises. -/
theorem fmt3_contract :
    fmt3 .null = .str "" ∧ fmt3 (.str "") = .str "" ∧
    (∀ (v : Val) (q : ℚ), isNoneOrEmptyStr v = false → pyFloat v = some q →
        fmt3 v = .str (formatFixed3 q)) ∧
    (∀ q : ℚ, threeDecimals (formatFixed3 q) = true) ∧
    (∀ v : Val, isNoneOrEmptyStr v = false → pyFloat v = none → fmt3 v = v) ∧
    fmt3 (.str "0.3") = .str "0.300" ∧ fmt3 (.str "abc") = .str "abc" := by
  refine ⟨rfl, rfl, fun v q hv hq => by simp [fmt3, hv, hq],
    formatFixed3_threeDecimals, fun v hv hq => by simp [fmt3, hv, hq], ?_, rfl⟩
  obtain ⟨q0, hq0, hq3⟩ : ∃ x, parseFloat "0.3" = some x ∧ x = 3/10 :=
    ⟨_, rfl, by
      show ((1 : ℤ) : ℚ) * (((0 : ℕ) : ℚ) + ((3 : ℕ) : ℚ) / 10 ^ (1 : ℕ)) * 10 ^ (0 : ℤ) = 3/10
      norm_num⟩
  have h1 : fmt3 (.str "0.3") = .str (formatFixed3 q0) := by
    simp [fmt3, isNoneOrEmptyStr, pyFloat, hq0]
  rw [h1, hq3]
  have hm : roundHalfEven (|(3 : ℚ)/10| * 1000) = 300 := by
    have e : |(3 : ℚ)/10| * 1000 = 300 := by
      rw [abs_of_nonneg (by norm_num)]
      norm_num
    rw [e]
    unfold roundHalfEven
    norm_num
  unfold formatFixed3
  rw [hm]
  norm_num
  simp [natToDec, natDigits, pad3, digitChar]

/-- Witness for C4: a fractional number renders through the three-decimal
formatter and a non-numeric string passes through unchanged. -/
theorem fmt3_contract_witness :
    fmt3 (.num (5/2)) = .str (formatFixed3 (5/2)) ∧ fmt3 (.str "xy") = .str "xy" :=
  ⟨fmt3_contract.2.2.1 (.num (5/2)) (5/2) rfl rfl,
   fmt3_contract.2.2.2.2.1 (.str "xy") rfl rfl⟩
